import Mathlib

/-!
Shallow embedding of the `middlewarebuilder` Go package and its storage
example.  Pure functions become Lean functions; Go's `(value, error)`
multi-returns become pairs with an `Option` error component (for the
builder, whose error-path value is observable) or `Except` results (for
the repository operations, whose error-path value is Go's zero value and
never inspected); mutable state (the store map, the cache map, the debug
output sink) is threaded explicitly.
-/

namespace MWB

/-- Error universe for the builder: the distinguished `errMissingHandler`
value plus factory-produced errors drawn from `ε`. -/
inductive MWError (ε : Type) where
  | missingHandler
  | factoryError (e : ε)
deriving DecidableEq, Repr

/-- Go `Factory[T]` / `FactoryFunc[T]`: `Create(next T) (T, error)`. -/
abbrev Factory (ε T : Type) := T → T × Option (MWError ε)

variable {ε T : Type}

/-- The loop body of Go `Factories.Create`, iterated over the factory list
already reversed: `next, err = f[i].Create(next); if err != nil return`. -/
def createLoop : List (Factory ε T) → T → T × Option (MWError ε)
  | [], next => (next, none)
  | f :: rest, next =>
    match f next with
    | (v, some e) => (v, some e)
    | (v, none) => createLoop rest v

/-- Go `Factories.Create`: iterates `i` from `len(f)-1` down to `0`,
i.e. over the reversed list. -/
def Factories.Create (fs : List (Factory ε T)) (handler : T) : T × Option (MWError ε) :=
  createLoop fs.reverse handler

/-- Go `Builder[T]`: an ordered factory list and an optional handler
(`*T`, nil until `WithHandler`). -/
structure Builder (ε T : Type) where
  factories : List (Factory ε T)
  handler : Option T

/-- Go `NewBuilder[T]()`. -/
def NewBuilder : Builder ε T := ⟨[], none⟩

/-- Go `Builder.Add`: appends the factory. -/
def Builder.Add (b : Builder ε T) (f : Factory ε T) : Builder ε T :=
  { b with factories := b.factories ++ [f] }

/-- Go `Builder.WithHandler`: sets (overwrites) the handler. -/
def Builder.WithHandler (b : Builder ε T) (h : T) : Builder ε T :=
  { b with handler := some h }

/-- Go `Builder.Build`: zero value plus `errMissingHandler` when no
handler was set, otherwise `Factories.Create` on the handler. -/
def Builder.Build [Inhabited T] (b : Builder ε T) : T × Option (MWError ε) :=
  match b.handler with
  | none => (default, some .missingHandler)
  | some h => Factories.Create b.factories h

/-- The spec's wording of chain construction: "starts with `next = handler`,
and for each factory from last-added to first-added, computes
`next = factory.Create(next)`", first error wins.  Written by structural
recursion on the addition-ordered list, to be compared with the source's
reversed-iteration loop. -/
def specChain : List (Factory ε T) → T → T × Option (MWError ε)
  | [], h => (h, none)
  | f :: rest, h =>
    match specChain rest h with
    | (v, some e) => (v, some e)
    | (v, none) => f v

theorem createLoop_append (xs ys : List (Factory ε T)) (h : T) :
    createLoop (xs ++ ys) h =
      match createLoop xs h with
      | (v, some e) => (v, some e)
      | (v, none) => createLoop ys v := by
  induction xs generalizing h with
  | nil => simp [createLoop]
  | cons f rest ih =>
    simp only [List.cons_append, createLoop]
    cases hf : f h with
    | mk v e =>
      cases e with
      | none => simpa using ih v
      | some e' => simp

theorem factories_create_eq_specChain (fs : List (Factory ε T)) (h : T) :
    Factories.Create fs h = specChain fs h := by
  induction fs with
  | nil => rfl
  | cons f rest ih =>
    simp only [Factories.Create, List.reverse_cons, specChain] at *
    rw [createLoop_append, ih]
    cases hrest : specChain rest h with
    | mk v e =>
      cases e with
      | none =>
        simp only [createLoop]
        cases hf : f v with
        | mk w e' => cases e' <;> simp
      | some e' => simp

theorem build_withHandler [Inhabited T] (b : Builder ε T) (h : T) :
    (b.WithHandler h).Build = Factories.Create b.factories h := rfl

theorem builder_add_foldl (fs : List (Factory ε T)) (b : Builder ε T) :
    (fs.foldl Builder.Add b).factories = b.factories ++ fs ∧
      (fs.foldl Builder.Add b).handler = b.handler := by
  induction fs generalizing b with
  | nil => simp
  | cons f rest ih =>
    simpa [Builder.Add] using ih { b with factories := b.factories ++ [f] }

/-- The text-concatenation example from the builder test:
`exampleMiddlewareFactory` wraps `next` so the wrapper appends
`": " ++ ExtraText` to the input before delegating. -/
abbrev TextCreator := String → String

def exampleMiddlewareFactory (extraText : String) : Factory String TextCreator :=
  fun next => ((fun input => next (input ++ ": " ++ extraText)), none)

/-- `exampleHandler.CreateText`: appends `": handler"`. -/
def exampleHandler : TextCreator := fun input => input ++ ": handler"

end MWB

namespace Storage

/-- Go `Entity[K Identifier] interface { Identifier() K }`. -/
class Entity (K : Type) (T : Type) where
  Identifier : T → K

/-- Go `serializer[T]` capability: `Serialize(T) ([]byte, error)` and
`UnSerialize([]byte) (T, error)`, with the byte type abstracted as `β`. -/
structure Serializer (α β ε : Type) where
  serialize : α → Except ε β
  unSerialize : β → Except ε α

/-- Errors surfaced by the in-memory repository: `errNotFound`,
`unable to serialize ...: %w` and `unable to unserialize entity: %w`. -/
inductive StoreError (ε : Type) where
  | notFound
  | serializationError (e : ε)
  | deserializationError (e : ε)
deriving DecidableEq, Repr

/-- Go map semantics over an association list: `v, ok := m[k]`. -/
def lookupA {κ ω : Type} [DecidableEq κ] : List (κ × ω) → κ → Option ω
  | [], _ => none
  | (k, v) :: rest, key => if key = k then some v else lookupA rest key

/-- Go map semantics: `delete(m, k)`. -/
def eraseA {κ ω : Type} [DecidableEq κ] (m : List (κ × ω)) (key : κ) : List (κ × ω) :=
  m.filter (fun p => decide (p.1 ≠ key))

/-- Go map semantics: `m[k] = v` (overwrite). -/
def insertA {κ ω : Type} [DecidableEq κ] (m : List (κ × ω)) (key : κ) (v : ω) : List (κ × ω) :=
  (key, v) :: eraseA m key

theorem lookupA_eraseA_self {κ ω : Type} [DecidableEq κ] (m : List (κ × ω)) (key : κ) :
    lookupA (eraseA m key) key = none := by
  induction m with
  | nil => rfl
  | cons p rest ih =>
    by_cases hk : p.1 = key
    · simpa [eraseA, hk] using ih
    · cases p with
      | mk k v =>
        simp only at hk
        simp [eraseA, lookupA, hk, Ne.symm hk] at *
        simpa [eraseA] using ih

theorem lookupA_insertA_self {κ ω : Type} [DecidableEq κ] (m : List (κ × ω)) (key : κ) (v : ω) :
    lookupA (insertA m key v) key = some v := by
  simp [insertA, lookupA]

/-- Go `InMemoryRepository[T, K]`: serialized bytes keyed by serialized
identifier, plus the two injected serializers. -/
structure InMemoryRepository (T K β ε : Type) where
  entities : List (β × β)
  identifierSerializer : Serializer K β ε
  entitySerializer : Serializer T β ε

variable {T K β ε : Type}

/-- Go `InMemoryRepository.Get`: serialize the id, look up, deserialize.
State-passing form; Go's method never writes the map. -/
def InMemoryRepository.Get [DecidableEq β] (i : InMemoryRepository T K β ε) (id : K) :
    Except (StoreError ε) T × InMemoryRepository T K β ε :=
  match i.identifierSerializer.serialize id with
  | .error e => (.error (.serializationError e), i)
  | .ok key =>
    match lookupA i.entities key with
    | none => (.error .notFound, i)
    | some raw =>
      match i.entitySerializer.unSerialize raw with
      | .error e => (.error (.deserializationError e), i)
      | .ok entity => (.ok entity, i)

/-- Go `InMemoryRepository.Set`: serialize the entity's own identifier and
the entity; on success overwrite the entry. -/
def InMemoryRepository.Set [DecidableEq β] [Entity K T] (i : InMemoryRepository T K β ε)
    (entity : T) : Option (StoreError ε) × InMemoryRepository T K β ε :=
  match i.identifierSerializer.serialize (Entity.Identifier entity) with
  | .error e => (some (.serializationError e), i)
  | .ok key =>
    match i.entitySerializer.serialize entity with
    | .error e => (some (.serializationError e), i)
    | .ok raw => (none, { i with entities := insertA i.entities key raw })

/-- Go `InMemoryRepository.Delete`: serialize the id, `delete` from the map
(no-op when absent). -/
def InMemoryRepository.Delete [DecidableEq β] (i : InMemoryRepository T K β ε) (id : K) :
    Option (StoreError ε) × InMemoryRepository T K β ε :=
  match i.identifierSerializer.serialize id with
  | .error e => (some (.serializationError e), i)
  | .ok key => (none, { i with entities := eraseA i.entities key })

/-- The execution context, restricted to the one key the package reads:
`debugValue` is the string stored under the `debug` context key, when
present. -/
structure Ctx where
  debugValue : Option String
deriving DecidableEq, Repr

/-- Go `ContextWithEnabledDebug`: attaches the string `"enabled"` under the
debug key. -/
def ContextWithEnabledDebug (ctx : Ctx) : Ctx :=
  { ctx with debugValue := some "enabled" }

/-- A stage of the repository chain (`Repository[T, K]`), as a state
machine over its private state `σ`: each operation takes the context and
state, and returns the Go results, the new state, and the lines written to
the shared debug output sink during the call, in order. -/
structure RepoOps (T K E σ : Type) where
  get : Ctx → σ → K → Except E T × σ × List String
  set : Ctx → σ → T → Option E × σ × List String
  delete : Ctx → σ → K → Option E × σ × List String

variable {E σ : Type}

/-- Go `Cache.Get`: on hit return the cached entity; on miss delegate and,
on success, cache the result under its self-reported identifier. -/
def Cache.Get [DecidableEq K] [Entity K T] (next : RepoOps T K E σ) (ctx : Ctx)
    (st : List (K × T) × σ) (id : K) : Except E T × (List (K × T) × σ) × List String :=
  match lookupA st.1 id with
  | some entity => (.ok entity, st, [])
  | none =>
    match next.get ctx st.2 id with
    | (.error e, s', out) => (.error e, (st.1, s'), out)
    | (.ok entity, s', out) =>
      (.ok entity, (insertA st.1 (Entity.Identifier entity) entity, s'), out)

/-- Go `Cache.Set`: drop the cache entry for the entity's identifier, then
delegate the write. -/
def Cache.Set [DecidableEq K] [Entity K T] (next : RepoOps T K E σ) (ctx : Ctx)
    (st : List (K × T) × σ) (entity : T) : Option E × (List (K × T) × σ) × List String :=
  let c := eraseA st.1 (Entity.Identifier entity)
  match next.set ctx st.2 entity with
  | (e, s', out) => (e, (c, s'), out)

/-- Go `Cache.Delete`: drop the cache entry for `id`, then delegate. -/
def Cache.Delete [DecidableEq K] (next : RepoOps T K E σ) (ctx : Ctx)
    (st : List (K × T) × σ) (id : K) : Option E × (List (K × T) × σ) × List String :=
  let c := eraseA st.1 id
  match next.delete ctx st.2 id with
  | (e, s', out) => (e, (c, s'), out)

/-- The `Cache[T, K]` stage as a chain link: its state is its private map
paired with the next stage's state. -/
def CacheOps [DecidableEq K] [Entity K T] (next : RepoOps T K E σ) :
    RepoOps T K E (List (K × T) × σ) where
  get := Cache.Get next
  set := Cache.Set next
  delete := Cache.Delete next

/-- The trace line `fmt.Fprintf(d.Output, "[DEBUG][%s] Pre%s\n", ...)`. -/
def debugLine (label op : String) : String :=
  "[DEBUG][" ++ label ++ "] Pre" ++ op

/-- Go `Debug.Get`: when the debug marker is attached to the context,
write the pre-call line, then delegate unconditionally. -/
def Debug.Get (label : String) (next : RepoOps T K E σ) (ctx : Ctx) (s : σ) (id : K) :
    Except E T × σ × List String :=
  let pre := if ctx.debugValue.isSome then [debugLine label "Get"] else []
  match next.get ctx s id with
  | (r, s', out) => (r, s', pre ++ out)

/-- Go `Debug.Set`. -/
def Debug.Set (label : String) (next : RepoOps T K E σ) (ctx : Ctx) (s : σ) (entity : T) :
    Option E × σ × List String :=
  let pre := if ctx.debugValue.isSome then [debugLine label "Set"] else []
  match next.set ctx s entity with
  | (r, s', out) => (r, s', pre ++ out)

/-- Go `Debug.Delete`. -/
def Debug.Delete (label : String) (next : RepoOps T K E σ) (ctx : Ctx) (s : σ) (id : K) :
    Option E × σ × List String :=
  let pre := if ctx.debugValue.isSome then [debugLine label "Delete"] else []
  match next.delete ctx s id with
  | (r, s', out) => (r, s', pre ++ out)

/-- The `Debug[T, K]` stage as a chain link (the output sink is the shared
emission stream, the label distinguishes stacked instances). -/
def DebugOps (label : String) (next : RepoOps T K E σ) : RepoOps T K E σ where
  get := Debug.Get label next
  set := Debug.Set label next
  delete := Debug.Delete label next

/-- The `Telemetry[T, K]` stage: delegates unconditionally and reports the
elapsed time through the global logger (not the debug sink); wall-clock
time is not modelled, so behaviourally it is the identity link. -/
def TelemetryOps (next : RepoOps T K E σ) : RepoOps T K E σ where
  get := next.get
  set := next.set
  delete := next.delete

/-- The `InMemoryRepository` terminal handler as a chain link: its state
is its entity map, and it writes nothing to the debug sink. -/
def InMemoryOps [DecidableEq β] [Entity K T]
    (idSer : Serializer K β ε) (entSer : Serializer T β ε) :
    RepoOps T K (StoreError ε) (List (β × β)) where
  get := fun _ s id =>
    match InMemoryRepository.Get ⟨s, idSer, entSer⟩ id with
    | (r, i') => (r, i'.entities, [])
  set := fun _ s entity =>
    match InMemoryRepository.Set ⟨s, idSer, entSer⟩ entity with
    | (r, i') => (r, i'.entities, [])
  delete := fun _ s id =>
    match InMemoryRepository.Delete ⟨s, idSer, entSer⟩ id with
    | (r, i') => (r, i'.entities, [])

/-- Go `User` with `UserID = string`: `Identifier()` returns `ID`. -/
structure User where
  ID : String
  Name : String
deriving DecidableEq, Repr

instance : Entity String User := ⟨User.ID⟩

/-- Byte strings exchanged with the user serializers, abstracted as a sum:
identifier bytes carry a `UserID`, entity bytes carry a `User`.  The
concrete wire format (raw bytes for ids, a structured encoding for
entities) is an external collaborator; only injectivity matters. -/
abbrev UserBytes := String ⊕ User

/-- Go `userIDSerializer`: total serialization of the id. -/
def userIDSerializer : Serializer String UserBytes Unit where
  serialize := fun id => .ok (.inl id)
  unSerialize := fun b =>
    match b with
    | .inl s => .ok s
    | .inr _ => .error ()

/-- Go `userSerializer`: injective entity encoding with its inverse. -/
def userSerializer : Serializer User UserBytes Unit where
  serialize := fun u => .ok (.inr u)
  unSerialize := fun b =>
    match b with
    | .inr u => .ok u
    | .inl _ => .error ()

instance : Entity Nat (Nat × Nat) := ⟨Prod.fst⟩

/-- A stub next stage whose state counts its `get` invocations and which
returns the fixed entity `(5, 0)` whatever id is asked — its self-reported
identifier `5` differs from other requested ids. -/
def stubNext : RepoOps (Nat × Nat) Nat Unit Nat where
  get := fun _ n _ => (.ok (5, 0), n + 1, [])
  set := fun _ n _ => (none, n, [])
  delete := fun _ n _ => (none, n, [])

/-- A stub next stage counting `get` invocations and answering each id
with an entity that self-reports the requested id. -/
def stubNextEcho : RepoOps (Nat × Nat) Nat Unit Nat where
  get := fun _ n id => (.ok (id, 7), n + 1, [])
  set := fun _ n _ => (none, n, [])
  delete := fun _ n _ => (none, n, [])

/-- State of the composed user repository: cache map, then store map. -/
abbrev UserRepoState := List (String × User) × List (UserBytes × UserBytes)

/-- Go `NewUserRepository`: Telemetry, Debug "CacheCall", Cache,
Debug "StorageCall", then the in-memory store — composed in the order
`Builder.Build` produces (first-added outermost, proved for the builder
separately). -/
def NewUserRepository : RepoOps User String (StoreError Unit) UserRepoState :=
  TelemetryOps (DebugOps "CacheCall" (CacheOps (DebugOps "StorageCall"
    (InMemoryOps userIDSerializer userSerializer))))

/-- The example scenario of `ExampleUserRepositoryGet`: with debug enabled
on the context, `Set {ID:"10", Name:"John"}`, then `Get "10"` twice, from
empty cache and store.  Returns the debug lines emitted by each of the
three calls, and the two `Get` results. -/
def exampleScenario :
    (List String × List String × List String) ×
      (Except (StoreError Unit) User × Except (StoreError Unit) User) :=
  let ctx := ContextWithEnabledDebug ⟨none⟩
  let s0 : UserRepoState := ([], [])
  let r1 := NewUserRepository.set ctx s0 ⟨"10", "John"⟩
  let r2 := NewUserRepository.get ctx r1.2.1 "10"
  let r3 := NewUserRepository.get ctx r2.2.1 "10"
  ((r1.2.2, r2.2.2, r3.2.2), (r2.1, r3.1))

end Storage

/-- C1: for every builder with handler `h` and factories `f1..fN` added in
that order, `Build` composes the chain by processing factories in reverse
of addition order (`next = h`, then `next = factory.Create(next)` from
last-added to first-added, first error wins); and in the
text-concatenation example, the chain maps `"input"` to
`"input: first: second: third: handler"` (first-added factory outermost,
handler last). -/
theorem build_composes_in_reverse_order :
    (∀ (ε T : Type) [Inhabited T] (fs : List (MWB.Factory ε T)) (h : T),
      ((fs.foldl MWB.Builder.Add MWB.NewBuilder).WithHandler h).Build = MWB.specChain fs h)
    ∧ ((((MWB.NewBuilder.Add (MWB.exampleMiddlewareFactory "first")).Add
          (MWB.exampleMiddlewareFactory "second")).Add
          (MWB.exampleMiddlewareFactory "third")).WithHandler MWB.exampleHandler).Build.1
          "input"
        = "input: first: second: third: handler" := by
  constructor
  · intro ε T _ fs h
    have hb := MWB.builder_add_foldl fs (MWB.NewBuilder (ε := ε) (T := T))
    rw [MWB.build_withHandler, hb.1]
    simp only [MWB.NewBuilder, List.nil_append]
    exact MWB.factories_create_eq_specChain fs h
  · rfl

/-- C2: if, with a handler set, the factory at some position fails during
`Build` (the factories added after it having successfully composed the
inner chain `inner`, and the failing factory returning `(v, some e)` on
`inner`), then `Build` returns exactly that error `e`; its value component
is `v`, the failing factory's own returned value, not the composed inner
chain; and the factories added before the failing one are never invoked:
the result is the same whatever they are. -/
theorem build_factory_error_short_circuits :
    ∀ (ε T : Type) [Inhabited T] (tail : List (MWB.Factory ε T)) (fk : MWB.Factory ε T)
      (h inner v : T) (e : MWB.MWError ε),
      MWB.Factories.Create tail h = (inner, none) →
      fk inner = (v, some e) →
      ∀ gs : List (MWB.Factory ε T),
        (MWB.Builder.mk (gs ++ fk :: tail) (some h) : MWB.Builder ε T).Build = (v, some e) := by
  intro ε T _ tail fk h inner v e htail hfk gs
  simp only [MWB.Builder.Build, MWB.Factories.Create, List.reverse_append,
    List.reverse_cons, List.append_assoc]
  rw [show tail.reverse ++ ([fk] ++ gs.reverse) = (tail.reverse ++ [fk]) ++ gs.reverse by
    simp]
  rw [MWB.createLoop_append, MWB.createLoop_append]
  simp only [MWB.Factories.Create] at htail
  rw [htail]
  simp [MWB.createLoop, hfk]

/-- Witness for C2: a three-factory builder whose middle factory fails
with `factoryError "boom"`; `Build` returns that error with the failing
factory's value `0`, whatever the first factory is. -/
theorem build_factory_error_short_circuits_witness :
    (MWB.Builder.mk
        ([fun n => (n + 100, none)] ++
          (fun _ => (0, some (MWB.MWError.factoryError "boom"))) :: [fun n => (n + 1, none)])
        (some 10) : MWB.Builder String Nat).Build
      = (0, some (MWB.MWError.factoryError "boom")) :=
  build_factory_error_short_circuits String Nat [fun n => (n + 1, none)]
    (fun _ => (0, some (MWB.MWError.factoryError "boom"))) 10 11 0
    (MWB.MWError.factoryError "boom") rfl rfl [fun n => (n + 100, none)]

/-- C3: a builder on which no handler was set (built by any sequence of
`Add` calls from `NewBuilder`) always fails with the missing-handler
error; the result does not depend on the factories, so none is invoked. -/
theorem build_without_handler_fails :
    ∀ (ε T : Type) [Inhabited T] (fs : List (MWB.Factory ε T)),
      (fs.foldl MWB.Builder.Add MWB.NewBuilder).Build
        = (default, some MWB.MWError.missingHandler) := by
  intro ε T _ fs
  have hb := MWB.builder_add_foldl fs (MWB.NewBuilder (ε := ε) (T := T))
  simp only [MWB.Builder.Build]
  rw [hb.2]
  rfl

/-- C6: `Set` serializes the entity's own identifier and the entity; if
either serialization fails it returns a `serializationError` and leaves
the store unchanged; on success it returns no error and overwrites any
existing entry for the serialized key. -/
theorem inmemory_set_spec :
    ∀ (T K β ε : Type) [DecidableEq β] [Storage.Entity K T]
      (i : Storage.InMemoryRepository T K β ε) (entity : T),
      (∀ e, i.identifierSerializer.serialize (Storage.Entity.Identifier entity) = .error e →
        i.Set entity = (some (.serializationError e), i)) ∧
      (∀ key e, i.identifierSerializer.serialize (Storage.Entity.Identifier entity) = .ok key →
        i.entitySerializer.serialize entity = .error e →
        i.Set entity = (some (.serializationError e), i)) ∧
      (∀ key raw, i.identifierSerializer.serialize (Storage.Entity.Identifier entity) = .ok key →
        i.entitySerializer.serialize entity = .ok raw →
        i.Set entity = (none, { i with entities := Storage.insertA i.entities key raw }) ∧
          Storage.lookupA (i.Set entity).2.entities key = some raw) := by
  intro T K β ε _ _ i entity
  refine ⟨fun e he => ?_, fun key e hk he => ?_, fun key raw hk hr => ?_⟩
  · simp [Storage.InMemoryRepository.Set, he]
  · simp [Storage.InMemoryRepository.Set, hk, he]
  · simp [Storage.InMemoryRepository.Set, hk, hr, Storage.lookupA_insertA_self]

/-- Witness for C6: storing `{ID := "10", Name := "John"}` in the empty
user store succeeds and the entry is retrievable under the serialized
key. -/
theorem inmemory_set_spec_witness :
    (⟨[], Storage.userIDSerializer, Storage.userSerializer⟩ :
        Storage.InMemoryRepository Storage.User String Storage.UserBytes Unit).Set
        ⟨"10", "John"⟩
      = (none, ⟨[(.inl "10", .inr ⟨"10", "John"⟩)],
          Storage.userIDSerializer, Storage.userSerializer⟩) :=
  ((inmemory_set_spec Storage.User String Storage.UserBytes Unit
    ⟨[], Storage.userIDSerializer, Storage.userSerializer⟩ ⟨"10", "John"⟩).2.2
    (.inl "10") (.inr ⟨"10", "John"⟩) rfl rfl).1

/-- C7: `Get(id)` fails with `serializationError` exactly when serializing
`id` fails; with `notFound` exactly when the id serializes but no entry
exists under the serialized key; with `deserializationError` exactly when
the stored bytes exist but fail to deserialize; and returns `t` exactly
when the stored bytes deserialize to `t`. -/
theorem inmemory_get_spec :
    ∀ (T K β ε : Type) [DecidableEq β] (i : Storage.InMemoryRepository T K β ε) (id : K),
      (∀ e, (i.Get id).1 = .error (.serializationError e) ↔
        i.identifierSerializer.serialize id = .error e) ∧
      ((i.Get id).1 = .error .notFound ↔
        ∃ key, i.identifierSerializer.serialize id = .ok key ∧
          Storage.lookupA i.entities key = none) ∧
      (∀ e, (i.Get id).1 = .error (.deserializationError e) ↔
        ∃ key raw, i.identifierSerializer.serialize id = .ok key ∧
          Storage.lookupA i.entities key = some raw ∧
          i.entitySerializer.unSerialize raw = .error e) ∧
      (∀ t, (i.Get id).1 = .ok t ↔
        ∃ key raw, i.identifierSerializer.serialize id = .ok key ∧
          Storage.lookupA i.entities key = some raw ∧
          i.entitySerializer.unSerialize raw = .ok t) := by
  intro T K β ε _ i id
  cases hs : i.identifierSerializer.serialize id with
  | error e =>
    simp [Storage.InMemoryRepository.Get, hs]
  | ok key =>
    cases hl : Storage.lookupA i.entities key with
    | none =>
      simp [Storage.InMemoryRepository.Get, hs, hl]
    | some raw =>
      cases hu : i.entitySerializer.unSerialize raw with
      | error e =>
        simp [Storage.InMemoryRepository.Get, hs, hl, hu]
      | ok t =>
        simp [Storage.InMemoryRepository.Get, hs, hl, hu]

/-- C8: when `id` serializes cleanly, `Delete(id)` succeeds whether or not
an entry is present, deleting twice in a row also succeeds both times, and
afterwards the store has no entry under the serialized key. -/
theorem inmemory_delete_idempotent :
    ∀ (T K β ε : Type) [DecidableEq β] (i : Storage.InMemoryRepository T K β ε)
      (id : K) (key : β),
      i.identifierSerializer.serialize id = .ok key →
      (i.Delete id).1 = none ∧
      Storage.lookupA (i.Delete id).2.entities key = none ∧
      ((i.Delete id).2.Delete id).1 = none ∧
      Storage.lookupA ((i.Delete id).2.Delete id).2.entities key = none := by
  intro T K β ε _ i id key hk
  simp [Storage.InMemoryRepository.Delete, hk, Storage.lookupA_eraseA_self]

/-- Witness for C8: deleting user `"10"` twice from a store that holds it
succeeds both times and leaves no entry. -/
theorem inmemory_delete_idempotent_witness :
    ((⟨[(.inl "10", .inr ⟨"10", "John"⟩)],
        Storage.userIDSerializer, Storage.userSerializer⟩ :
        Storage.InMemoryRepository Storage.User String Storage.UserBytes Unit).Delete
        "10").1 = none ∧
    Storage.lookupA ((⟨[(.inl "10", .inr ⟨"10", "John"⟩)],
        Storage.userIDSerializer, Storage.userSerializer⟩ :
        Storage.InMemoryRepository Storage.User String Storage.UserBytes Unit).Delete
        "10").2.entities (.inl "10") = none ∧
    (((⟨[(.inl "10", .inr ⟨"10", "John"⟩)],
        Storage.userIDSerializer, Storage.userSerializer⟩ :
        Storage.InMemoryRepository Storage.User String Storage.UserBytes Unit).Delete
        "10").2.Delete "10").1 = none ∧
    Storage.lookupA (((⟨[(.inl "10", .inr ⟨"10", "John"⟩)],
        Storage.userIDSerializer, Storage.userSerializer⟩ :
        Storage.InMemoryRepository Storage.User String Storage.UserBytes Unit).Delete
        "10").2.Delete "10").2.entities (.inl "10") = none :=
  inmemory_delete_idempotent Storage.User String Storage.UserBytes Unit
    ⟨[(.inl "10", .inr ⟨"10", "John"⟩)], Storage.userIDSerializer, Storage.userSerializer⟩
    "10" (.inl "10") rfl

/-- C10: `Get` never mutates the store: in the success case and in every
error case the repository state returned alongside the result is exactly
the input state. -/
theorem inmemory_get_preserves_state :
    ∀ (T K β ε : Type) [DecidableEq β] (i : Storage.InMemoryRepository T K β ε) (id : K),
      (i.Get id).2 = i := by
  intro T K β ε _ i id
  cases hs : i.identifierSerializer.serialize id with
  | error e => simp [Storage.InMemoryRepository.Get, hs]
  | ok key =>
    cases hl : Storage.lookupA i.entities key with
    | none => simp [Storage.InMemoryRepository.Get, hs, hl]
    | some raw =>
      cases hu : i.entitySerializer.unSerialize raw with
      | error e => simp [Storage.InMemoryRepository.Get, hs, hl, hu]
      | ok t => simp [Storage.InMemoryRepository.Get, hs, hl, hu]

/-- Counterexample to C4 as stated: against a stub next stage that
answers `Get 3` with an entity self-reporting identifier `5`, the first
`Cache.Get` on id `3` succeeds (and caches under `5`), yet the subsequent
`Cache.Get` on id `3` invokes the next stage again — its invocation
counter reaches `2` — instead of answering from the cache. -/
theorem cache_refill_mismatched_identifier :
    (Storage.Cache.Get Storage.stubNext ⟨none⟩ ([], 0) 3).1 = .ok (5, 0) ∧
    (Storage.Cache.Get Storage.stubNext ⟨none⟩ ([], 0) 3).2.1
      = ([(5, (5, 0))], 1) ∧
    (Storage.Cache.Get Storage.stubNext ⟨none⟩
        (Storage.Cache.Get Storage.stubNext ⟨none⟩ ([], 0) 3).2.1 3).2.1.2 = 2 :=
  ⟨rfl, rfl, rfl⟩

/-- C4 (amended): `Cache.Get` returns a cached entity on hit without
touching the next stage; on miss it delegates and, on success, stores the
returned entity under its own self-reported identifier before returning
it; on delegate failure it caches nothing and propagates the error; and
when the fetched entity self-reports the requested id, a subsequent
`Get(id)` answers from the cache with no delegation and no state
change. -/
theorem cache_get_spec :
    ∀ (T K E σ : Type) [DecidableEq K] [Storage.Entity K T]
      (next : Storage.RepoOps T K E σ) (ctx : Storage.Ctx)
      (c : List (K × T)) (s : σ) (id : K),
      (∀ entity, Storage.lookupA c id = some entity →
        Storage.Cache.Get next ctx (c, s) id = (.ok entity, (c, s), [])) ∧
      (∀ entity s' out, Storage.lookupA c id = none →
        next.get ctx s id = (.ok entity, s', out) →
        Storage.Cache.Get next ctx (c, s) id
          = (.ok entity,
              (Storage.insertA c (Storage.Entity.Identifier entity) entity, s'), out)) ∧
      (∀ e s' out, Storage.lookupA c id = none →
        next.get ctx s id = (.error e, s', out) →
        Storage.Cache.Get next ctx (c, s) id = (.error e, (c, s'), out)) ∧
      (∀ entity s' out ctx₂, Storage.lookupA c id = none →
        next.get ctx s id = (.ok entity, s', out) →
        Storage.Entity.Identifier entity = id →
        Storage.Cache.Get next ctx₂ (Storage.Cache.Get next ctx (c, s) id).2.1 id
          = (.ok entity, (Storage.Cache.Get next ctx (c, s) id).2.1, [])) := by
  intro T K E σ _ _ next ctx c s id
  refine ⟨fun entity hh => ?_, fun entity s' out hm hn => ?_,
    fun e s' out hm hn => ?_, fun entity s' out ctx₂ hm hn hid => ?_⟩
  · simp [Storage.Cache.Get, hh]
  · simp [Storage.Cache.Get, hm, hn]
  · simp [Storage.Cache.Get, hm, hn]
  · have h1 : Storage.Cache.Get next ctx (c, s) id
        = (.ok entity,
            (Storage.insertA c (Storage.Entity.Identifier entity) entity, s'), out) := by
      simp [Storage.Cache.Get, hm, hn]
    rw [h1]
    simp [Storage.Cache.Get, hid, Storage.lookupA_insertA_self]

/-- Witness for C4 (amended): against a stub echoing the requested id,
the first `Get 3` populates the cache and the second `Get 3` is a pure
cache hit. -/
theorem cache_get_spec_witness :
    Storage.Cache.Get Storage.stubNextEcho ⟨none⟩
        (Storage.Cache.Get Storage.stubNextEcho ⟨none⟩ ([], 0) 3).2.1 3
      = (.ok (3, 7), (Storage.Cache.Get Storage.stubNextEcho ⟨none⟩ ([], 0) 3).2.1, []) :=
  (cache_get_spec (Nat × Nat) Nat Unit Nat Storage.stubNextEcho ⟨none⟩ [] 0 3).2.2.2
    (3, 7) 1 [] ⟨none⟩ rfl rfl rfl

/-- C5: `Cache.Set` removes the cache entry for the written entity's
identifier (and `Cache.Delete` the entry for `id`) before delegating, so
afterwards the cache holds nothing for that key and a subsequent
`Cache.Get` for it misses and returns exactly what the next stage then
answers — never a stale pre-write cached value. -/
theorem cache_invalidation_spec :
    ∀ (T K E σ : Type) [DecidableEq K] [Storage.Entity K T]
      (next : Storage.RepoOps T K E σ) (ctx ctx₂ : Storage.Ctx)
      (c : List (K × T)) (s : σ) (entity : T) (id : K) (s₂ : σ),
      (Storage.Cache.Set next ctx (c, s) entity).2.1.1
        = Storage.eraseA c (Storage.Entity.Identifier entity) ∧
      Storage.lookupA (Storage.Cache.Set next ctx (c, s) entity).2.1.1
        (Storage.Entity.Identifier entity) = none ∧
      (Storage.Cache.Delete next ctx (c, s) id).2.1.1 = Storage.eraseA c id ∧
      Storage.lookupA (Storage.Cache.Delete next ctx (c, s) id).2.1.1 id = none ∧
      (Storage.Cache.Get next ctx₂
          ((Storage.Cache.Set next ctx (c, s) entity).2.1.1, s₂)
          (Storage.Entity.Identifier entity)).1
        = (next.get ctx₂ s₂ (Storage.Entity.Identifier entity)).1 ∧
      (Storage.Cache.Get next ctx₂
          ((Storage.Cache.Delete next ctx (c, s) id).2.1.1, s₂) id).1
        = (next.get ctx₂ s₂ id).1 := by
  intro T K E σ _ _ next ctx ctx₂ c s entity id s₂
  have hset : (Storage.Cache.Set next ctx (c, s) entity).2.1.1
      = Storage.eraseA c (Storage.Entity.Identifier entity) := by
    simp only [Storage.Cache.Set]
  have hdel : (Storage.Cache.Delete next ctx (c, s) id).2.1.1
      = Storage.eraseA c id := by
    simp only [Storage.Cache.Delete]
  have hmiss : ∀ (c' : List (K × T)) (k : K), Storage.lookupA c' k = none →
      (Storage.Cache.Get next ctx₂ (c', s₂) k).1 = (next.get ctx₂ s₂ k).1 := by
    intro c' k hk
    simp only [Storage.Cache.Get, hk]
    cases hg : next.get ctx₂ s₂ k with
    | mk r rest =>
      cases r with
      | error e => rfl
      | ok entity' => rfl
  refine ⟨hset, ?_, hdel, ?_, ?_, ?_⟩
  · rw [hset]; exact Storage.lookupA_eraseA_self c _
  · rw [hdel]; exact Storage.lookupA_eraseA_self c _
  · exact hmiss _ _ (by rw [hset]; exact Storage.lookupA_eraseA_self c _)
  · exact hmiss _ _ (by rw [hdel]; exact Storage.lookupA_eraseA_self c _)

/-- C9: each `Debug` operation writes exactly one `[DEBUG][<Label>]
Pre<Operation>` line before the next stage's output when the context
carries the debug marker, and nothing otherwise, delegating
unconditionally with result, state and error unchanged; and the §8
scenario (Set, Get, Get with debug enabled on the composed user chain)
emits exactly PreSet(CacheCall), PreSet(StorageCall); PreGet(CacheCall),
PreGet(StorageCall); then only PreGet(CacheCall). -/
theorem debug_decorator_spec :
    (∀ (T K E σ : Type) (label : String) (next : Storage.RepoOps T K E σ)
      (ctx : Storage.Ctx) (s : σ) (id : K),
      Storage.Debug.Get label next ctx s id
        = ((next.get ctx s id).1, (next.get ctx s id).2.1,
            (if ctx.debugValue.isSome then [Storage.debugLine label "Get"] else [])
              ++ (next.get ctx s id).2.2)) ∧
    (∀ (T K E σ : Type) (label : String) (next : Storage.RepoOps T K E σ)
      (ctx : Storage.Ctx) (s : σ) (entity : T),
      Storage.Debug.Set label next ctx s entity
        = ((next.set ctx s entity).1, (next.set ctx s entity).2.1,
            (if ctx.debugValue.isSome then [Storage.debugLine label "Set"] else [])
              ++ (next.set ctx s entity).2.2)) ∧
    (∀ (T K E σ : Type) (label : String) (next : Storage.RepoOps T K E σ)
      (ctx : Storage.Ctx) (s : σ) (id : K),
      Storage.Debug.Delete label next ctx s id
        = ((next.delete ctx s id).1, (next.delete ctx s id).2.1,
            (if ctx.debugValue.isSome then [Storage.debugLine label "Delete"] else [])
              ++ (next.delete ctx s id).2.2)) ∧
    Storage.exampleScenario
      = ((["[DEBUG][CacheCall] PreSet", "[DEBUG][StorageCall] PreSet"],
          ["[DEBUG][CacheCall] PreGet", "[DEBUG][StorageCall] PreGet"],
          ["[DEBUG][CacheCall] PreGet"]),
          (.ok ⟨"10", "John"⟩, .ok ⟨"10", "John"⟩)) := by
  refine ⟨?_, ?_, ?_, by rfl⟩
  · intro T K E σ label next ctx s id
    simp only [Storage.Debug.Get]
  · intro T K E σ label next ctx s entity
    simp only [Storage.Debug.Set]
  · intro T K E σ label next ctx s id
    simp only [Storage.Debug.Delete]
